import Mathlib

/-!
# Freelance-marketplace backend: verification of the spec against the source

Shallow embedding of the repository's domain logic: the order lifecycle
(`createOrder`, `updateOrderStatus`, `completeOrder` from
`controllers/gigSimpleController.js` together with the route validator of
`routes/orders`), messaging with per-participant unread counters
(`controllers/messageController.js`), review creation (`controllers/reviewController`),
authentication (`controllers/authController.js` and the `protect` middleware),
and the gig image methods (`models/Gig.js`).

Mongo object ids are modelled as naturals, timestamps as naturals, monetary
amounts as naturals, the `jsonwebtoken` dependency as a record pairing the
signed payload with the signing secret, and `bcrypt` as an arbitrary
hash function passed explicitly.  Each HTTP handler is a pure function from
its inputs and the records it reads to a response paired with the records
after the handler ran; an early `return res.status(...)` in the source is a
branch that leaves the records unchanged.
-/

namespace Marketplace

/-- Mongo object id (modelled as a natural). -/
abbrev OId := Nat

/-- The `User.role` enum (`models/User.js`). -/
inductive Role
  | client
  | freelancer
  | admin
deriving DecidableEq, Repr

/-- The `Order.status` enum (`models/Order.js` lines 24-28). -/
inductive OrderStatus
  | pending
  | accepted
  | inProgress
  | delivered
  | completed
  | cancelled
  | disputed
deriving DecidableEq, Repr

/-- The `Gig.status` enum (`models/Gig.js` lines 85-89). -/
inductive GigStatus
  | draft
  | pending
  | active
  | paused
  | rejected
deriving DecidableEq, Repr

/-- Response of a handler: success, or an early `res.status(n).json({message})`. -/
inductive HttpRes
  | ok
  | err (status : Nat) (msg : String)
deriving DecidableEq, Repr

/-- An order-embedded message (`models/Order.js` `messages` subdocuments). -/
structure OrderMsg where
  sender : OId
  content : String
  timestamp : Nat
  read : Bool := false
deriving DecidableEq, Repr

/-- An order record (`models/Order.js`), restricted to the fields the
modelled handlers read or write. -/
structure Order where
  id : OId
  gig : OId
  buyer : OId
  seller : OId
  amount : Nat
  status : OrderStatus
  requirements : List String
  completedDate : Option Nat := none
  messages : List OrderMsg := []
deriving DecidableEq, Repr

/-- A user record (`models/User.js`), restricted to the fields the modelled
handlers read or write.  `password` stores the bcrypt hash. -/
structure User where
  id : OId
  name : String
  email : String
  password : String
  role : Role
  isActive : Bool := true
  isSuspended : Bool := false
  totalEarnings : Nat := 0
  totalOrders : Nat := 0
deriving DecidableEq, Repr

/-- A gig image subdocument (`models/Gig.js` `images`; `isPrimary` defaults
to `false`). -/
structure Image where
  url : String
  isPrimary : Bool := false
deriving DecidableEq, Repr

/-- A gig record (`models/Gig.js`), restricted to the fields the modelled
handlers read or write. -/
structure Gig where
  id : OId
  seller : OId
  price : Nat
  status : GigStatus
  images : List Image := []
  totalOrders : Nat := 0
  totalEarnings : Nat := 0
deriving DecidableEq, Repr

/-- The authenticated caller (`req.user` after the `protect` middleware). -/
structure Caller where
  id : OId
  role : Role
deriving DecidableEq, Repr

/-- The `body('status').isIn([...])` on `PATCH /:id/status` (`routes/orders`
lines 40-43): the list omits `disputed`. -/
def statusUpdateValidator : OrderStatus → Bool
  | .disputed => false
  | _ => true

/-- The authorization test of `updateOrderStatus` (`gigSimpleController.js`
lines 260-262): admin, or the order's buyer, or the order's seller. -/
def isOrderParty (c : Caller) (o : Order) : Bool :=
  c.role == Role.admin || o.buyer == c.id || o.seller == c.id

/-- The `updateOrderStatus` (`gigSimpleController.js` lines 239-302) composed
with the route validator: on success writes `status` unconditionally,
stamping `completedDate` when the new status is `completed`, and pushing the
optional message onto the order's message list when its trim is nonempty. -/
def updateOrderStatus (c : Caller) (now : Nat) (st : OrderStatus)
    (message : Option String) (o : Order) : HttpRes × Order :=
  if ¬ statusUpdateValidator st then (.err 400 "Invalid status", o)
  else if ¬ isOrderParty c o then
    (.err 403 "Not authorized to update this order", o)
  else
    let o₁ : Order := match message with
      | some m =>
          if m.trim ≠ "" then
            { o with messages :=
                o.messages ++ [{ sender := c.id, content := m.trim,
                                 timestamp := now, read := false }] }
          else o
      | none => o
    (.ok, { o₁ with status := st,
                    completedDate :=
                      if st = OrderStatus.completed then some now
                      else o₁.completedDate })

/-- The three records `completeOrder` touches: the order, the seller fetched
by `order.seller`, and the gig fetched by `order.gig`. -/
structure CState where
  order : Order
  seller : User
  gig : Gig
deriving DecidableEq, Repr

/-- The `completeOrder` (`gigSimpleController.js` lines 424-478): only the buyer
may complete, only from `delivered`; on success the status becomes
`completed`, `completedDate` is stamped, and the seller's and gig's
`totalOrders`/`totalEarnings` are incremented. -/
def completeOrder (callerId now : Nat) (s : CState) : HttpRes × CState :=
  if s.order.buyer ≠ callerId then
    (.err 403 "Not authorized to complete this order", s)
  else if s.order.status ≠ OrderStatus.delivered then
    (.err 400 "Order must be delivered before completion", s)
  else
    (.ok,
      { order := { s.order with status := OrderStatus.completed,
                                completedDate := some now },
        seller := { s.seller with
                      totalOrders := s.seller.totalOrders + 1,
                      totalEarnings := s.seller.totalEarnings + s.order.amount },
        gig := { s.gig with
                   totalOrders := s.gig.totalOrders + 1,
                   totalEarnings := s.gig.totalEarnings + s.order.amount } })

/-- The `Gig.findById` over the modelled store. -/
def findGig (gigs : List Gig) (gid : OId) : Option Gig :=
  gigs.find? (fun g => g.id == gid)

/-- The `createOrder` (`gigSimpleController.js` lines 58-117) composed with the
route validators of `routes/orders` lines 25-28 (`requirements` nonempty,
`amount ≥ 5`): 404 when the gig is missing, 400 when it is not active or the
caller owns it, otherwise a fresh `pending` order is appended. -/
def createOrder (c : Caller) (gigId : OId) (requirements : List String)
    (amount : Nat) (newId : OId) (gigs : List Gig) (orders : List Order) :
    HttpRes × List Order :=
  if requirements.isEmpty || amount < 5 then (.err 400 "Validation error", orders)
  else
    match findGig gigs gigId with
    | none => (.err 404 "Gig not found", orders)
    | some gig =>
        if gig.status ≠ GigStatus.active then
          (.err 400 "Gig is not available for orders", orders)
        else if gig.seller = c.id then
          (.err 400 "You cannot order your own gig", orders)
        else
          (.ok, orders ++ [{ id := newId, gig := gigId, buyer := c.id,
                             seller := gig.seller, amount := amount,
                             requirements := requirements,
                             status := OrderStatus.pending }])

/-! ## Messaging (`controllers/messageController.js`)

The `Conversation` schema file itself is not among the sources, but every
behaviour the claims mention lives in the controller: `unreadCount` is a JS
`Map` from participant-id strings to numbers, read with `get(...) || 0` and
written with `set(...)`.  The map is embedded as an association list with
exactly those two operations. -/

/-- JS `Map<participantId, number>`: an association list keyed by ids. -/
abbrev UnreadMap := List (OId × Nat)

/-- The `conversation.unreadCount.get(k) || 0`. -/
def mget (m : UnreadMap) (k : OId) : Nat :=
  ((m.find? (fun p => p.1 == k)).map Prod.snd).getD 0

/-- The `conversation.unreadCount.set(k, v)`: replace the binding, or append it. -/
def mset (m : UnreadMap) (k : OId) (v : Nat) : UnreadMap :=
  if m.any (fun p => p.1 == k) then
    m.map (fun p => if p.1 == k then (k, v) else p)
  else m ++ [(k, v)]

/-- Conversation status: the controller only distinguishes `blocked` from
everything else (`status: { $ne: 'blocked' }`) and creates conversations as
`active`. -/
inductive ConvStatus
  | active
  | archived
  | blocked
deriving DecidableEq, Repr

/-- A conversation record, restricted to the fields the controller reads or
writes. -/
structure Conversation where
  id : OId
  participants : List OId
  status : ConvStatus
  order : Option OId := none
  gig : Option OId := none
  lastMessage : Option OId := none
  lastMessageAt : Option Nat := none
  unreadCount : UnreadMap := []
deriving DecidableEq, Repr

/-- A standalone message record (`models/Message`), restricted to the fields
the controller reads or writes. -/
structure Message where
  id : OId
  conversation : OId
  sender : OId
  content : String
  read : Bool := false
  readAt : Option Nat := none
deriving DecidableEq, Repr

/-- The `sendMessage` (`messageController.js` lines 168-239): participants only,
blocked conversations refuse; on success the message is stored and the
unread counter of every participant except the sender is bumped by the
`forEach` over `conversation.participants`. -/
def sendMessage (senderId : OId) (content : String) (msgId now : Nat)
    (conv : Conversation) (msgs : List Message) :
    HttpRes × Conversation × List Message :=
  if ¬ conv.participants.contains senderId then
    (.err 403 "Not authorized to send messages in this conversation", conv, msgs)
  else if conv.status = ConvStatus.blocked then
    (.err 403 "Conversation is blocked", conv, msgs)
  else
    let unread := conv.participants.foldl
      (fun m p => if p ≠ senderId then mset m p (mget m p + 1) else m)
      conv.unreadCount
    (.ok,
      { conv with lastMessage := some msgId, lastMessageAt := some now,
                  unreadCount := unread },
      msgs ++ [{ id := msgId, conversation := conv.id, sender := senderId,
                 content := content }])

/-- The `markAsRead` (`messageController.js` lines 244-292): participants only;
`Message.updateMany` flags every unread message of the conversation from a
different sender as read and stamps `readAt`, then the caller's unread
counter is set to 0. -/
def markAsRead (userId : OId) (now : Nat) (conv : Conversation)
    (msgs : List Message) : HttpRes × Conversation × List Message :=
  if ¬ conv.participants.contains userId then
    (.err 403 "Not authorized to access this conversation", conv, msgs)
  else
    (.ok,
      { conv with unreadCount := mset conv.unreadCount userId 0 },
      msgs.map (fun m =>
        if m.conversation == conv.id && m.sender != userId && !m.read then
          { m with read := true, readAt := some now }
        else m))

/-- The `createConversation` (`messageController.js` lines 46-102): 404 when the
requested participant does not exist; when a non-blocked conversation
containing both users already exists it is returned and nothing is written;
otherwise a fresh `active` two-participant conversation is appended.  The
second component of the result is the conversation in the response body. -/
def createConversation (callerId participantId : OId)
    (orderId gigId : Option OId) (newId : OId) (users : List User)
    (convs : List Conversation) :
    HttpRes × Option Conversation × List Conversation :=
  match users.find? (fun u => u.id == participantId) with
  | none => (HttpRes.err 404 "Participant not found", none, convs)
  | some _ =>
      match convs.find? (fun cv =>
          cv.participants.contains callerId &&
          cv.participants.contains participantId &&
          cv.status != ConvStatus.blocked) with
      | some existing => (.ok, some existing, convs)
      | none =>
          let fresh : Conversation :=
            { id := newId, participants := [callerId, participantId],
              status := ConvStatus.active, order := orderId, gig := gigId }
          (.ok, some fresh, convs ++ [fresh])

/-! ## Reviews (`controllers/reviewController`) -/

/-- The `Review.status` enum (`models/Review.js`). -/
inductive ReviewStatus
  | pending
  | approved
  | rejected
deriving DecidableEq, Repr

/-- A review record (`models/Review.js`), restricted to the fields
`createReview` writes. -/
structure Review where
  id : OId
  order : OId
  gig : OId
  reviewer : OId
  reviewee : OId
  rating : Nat
  comment : String
  status : ReviewStatus := ReviewStatus.pending
deriving DecidableEq, Repr

/-- The `Order.findById` over the modelled store. -/
def findOrder (orders : List Order) (oid : OId) : Option Order :=
  orders.find? (fun o => o.id == oid)

/-- The `createReview` (`controllers/reviewController` lines 10-78) composed with
the route validators of `routes/reviews.js` lines 23-26 (`rating` an integer
in `[1,5]`, `comment` nonempty and at most 1000 characters): 404 when the
order is missing, 403 when the caller is not its buyer, 400 when it is not
completed, 400 when a review for the order already exists; otherwise a
`pending` review is appended. -/
def createReview (callerId : OId) (orderId : OId) (rating : Nat)
    (comment : String) (newId : OId) (orders : List Order)
    (reviews : List Review) : HttpRes × List Review :=
  if rating < 1 || 5 < rating || comment.isEmpty || 1000 < comment.length then
    (.err 400 "Validation error", reviews)
  else
    match findOrder orders orderId with
    | none => (.err 404 "Order not found", reviews)
    | some order =>
        if order.buyer ≠ callerId then
          (.err 403 "Not authorized to review this order", reviews)
        else if order.status ≠ OrderStatus.completed then
          (.err 400 "Order must be completed before reviewing", reviews)
        else if (reviews.find? (fun r => r.order == orderId)).isSome then
          (.err 400 "Review already exists for this order", reviews)
        else
          (.ok, reviews ++ [{ id := newId, order := orderId, gig := order.gig,
                              reviewer := callerId, reviewee := order.seller,
                              rating := rating, comment := comment,
                              status := ReviewStatus.pending }])

/-! ## Authentication (`controllers/authController.js`, `protect` middleware)

`jsonwebtoken` is embedded as a record pairing the signed payload
(`{ id, role }`) with the signing secret: verification under a secret
succeeds exactly when the token was signed with that secret.  `bcrypt` is
embedded as an explicit hash function: the stored `password` field holds
`hash` of the plaintext, and `bcrypt.compare(p, stored)` is
`hash p = stored`. -/

/-- The `jwt.sign({ id, role }, secret)` (`authController.js` line 8). -/
structure Token where
  userId : OId
  role : Role
  secret : String
deriving DecidableEq, Repr

/-- The `generateToken` (`authController.js` lines 7-9). -/
def generateToken (u : User) (secret : String) : Token :=
  { userId := u.id, role := u.role, secret := secret }

/-- The `jwt.verify(token, secret)`: the payload when the secrets agree,
otherwise the thrown error (`none`). -/
def jwtVerify (t : Token) (secret : String) : Option (OId × Role) :=
  if t.secret = secret then some (t.userId, t.role) else none

/-- Response of the `login` handler. -/
inductive LoginRes
  | ok (user : User) (token : Token)
  | err (status : Nat) (msg : String)
deriving DecidableEq, Repr

/-- Response of the `protect` middleware: either `req.user` is set and the
chain continues, or an early 401. -/
inductive AuthRes
  | ok (user : User)
  | err (status : Nat) (msg : String)
deriving DecidableEq, Repr

/-- The `User.findOne({ email })` over the modelled store. -/
def findByEmail (db : List User) (email : String) : Option User :=
  db.find? (fun u => u.email == email)

/-- The `User.findById` over the modelled store. -/
def findById (db : List User) (uid : OId) : Option User :=
  db.find? (fun u => u.id == uid)

/-- The `login` (`authController.js` lines 33-90): an unknown email and a wrong
password take distinct branches but produce the same
`400 "Invalid credentials"` response; on success the signed token is
returned. -/
def login (hash : String → String) (db : List User)
    (email password secret : String) : LoginRes :=
  match findByEmail db email with
  | none => .err 400 "Invalid credentials"
  | some user =>
      if hash password ≠ user.password then .err 400 "Invalid credentials"
      else .ok user (generateToken user secret)

/-- The `validRoles` list of the `protect` middleware. -/
def validRoles : List Role := [Role.freelancer, Role.client, Role.admin]

/-- The `protect` (middleware, lines 4-60): token required, verified against the
secret, the user re-fetched and required to be active, not suspended, and of
a valid role. -/
def protect (db : List User) (token : Option Token) (secret : String) :
    AuthRes :=
  match token with
  | none => .err 401 "No token, authorization denied"
  | some t =>
      match jwtVerify t secret with
      | none => .err 401 "Token is not valid"
      | some (uid, _) =>
          match findById db uid with
          | none => .err 401 "User not found"
          | some user =>
              if ¬ user.isActive then .err 401 "Account is deactivated"
              else if user.isSuspended then .err 401 "Account is suspended"
              else if ¬ validRoles.contains user.role then
                .err 401 "Invalid user role"
              else .ok user

/-! ## Gig image methods (`models/Gig.js` lines 188-231) -/

/-- The `gigSchema.methods.addImage` (lines 188-199): the first image is forced
primary, any later image is pushed exactly as given. -/
def addImage (imgs : List Image) (img : Image) : List Image :=
  if imgs.isEmpty then imgs ++ [{ img with isPrimary := true }]
  else imgs ++ [img]

/-- The `gigSchema.methods.setPrimaryImage` (lines 202-213): with a valid index,
every image's `isPrimary` becomes `index === imageIndex`; otherwise the
method throws. -/
def setPrimaryImage (imgs : List Image) (i : Nat) :
    Except String (List Image) :=
  if i < imgs.length then
    .ok (imgs.enum.map (fun p => { p.2 with isPrimary := p.1 == i }))
  else .error "Invalid image index"

/-- The promotion step of `removeImage`: `this.images[0].isPrimary = true`. -/
def promoteFirst : List Image → List Image
  | [] => []
  | r :: rs => { r with isPrimary := true } :: rs

/-- The `gigSchema.methods.removeImage` (lines 216-231): with a valid index the
image is spliced out, and when it was primary and images remain the first
remaining image is made primary; otherwise the method throws. -/
def removeImage (imgs : List Image) (i : Nat) : Except String (List Image) :=
  match imgs[i]? with
  | none => .error "Invalid image index"
  | some removed =>
      let rest := imgs.eraseIdx i
      if removed.isPrimary && !rest.isEmpty then .ok (promoteFirst rest)
      else .ok rest

/-- One call of an image method on a gig's image list. -/
inductive ImgOp
  | add (img : Image)
  | setPrimary (i : Nat)
  | remove (i : Nat)
deriving DecidableEq, Repr

/-- Run one image method; a thrown `Invalid image index` reaches the
controller's catch block before any save, leaving the list unchanged. -/
def applyImgOp (imgs : List Image) (op : ImgOp) : List Image :=
  match op with
  | .add img => addImage imgs img
  | .setPrimary i =>
      match setPrimaryImage imgs i with
      | .ok l => l
      | .error _ => imgs
  | .remove i =>
      match removeImage imgs i with
      | .ok l => l
      | .error _ => imgs

/-- Number of images flagged primary. -/
def countPrimary (imgs : List Image) : Nat :=
  (imgs.filter (fun img => img.isPrimary)).length

/-! ## Derived counts used by the claims -/

/-- Number of stored reviews referencing a given order. -/
def reviewsFor (reviews : List Review) (orderId : OId) : Nat :=
  (reviews.filter (fun r => r.order == orderId)).length

/-- Number of non-blocked conversations whose participants include both
users: the quantity `createConversation` keeps at most 1 per pair. -/
def pairConvs (convs : List Conversation) (a b : OId) : Nat :=
  (convs.filter (fun cv =>
    cv.participants.contains a && cv.participants.contains b &&
    cv.status != ConvStatus.blocked)).length

/-! ## Concrete sample records (used by counterexamples and witnesses) -/

/-- A pending order: buyer 1, seller 2, gig 10, amount 50. -/
def ordPending : Order :=
  { id := 5, gig := 10, buyer := 1, seller := 2, amount := 50,
    status := OrderStatus.pending, requirements := ["logo"] }

/-- The same order once the seller has submitted delivery. -/
def ordDelivered : Order :=
  { ordPending with status := OrderStatus.delivered }

/-- The same order once completed. -/
def ordCompleted : Order :=
  { ordPending with status := OrderStatus.completed }

/-- The seller (user 2). -/
def sellerU : User :=
  { id := 2, name := "sam", email := "sam@example.com", password := "pw2",
    role := Role.freelancer }

/-- The active gig (id 10) owned by user 2. -/
def gigActive : Gig :=
  { id := 10, seller := 2, price := 50, status := GigStatus.active }

/-- Complete-order state around the pending order. -/
def stPending : CState :=
  { order := ordPending, seller := sellerU, gig := gigActive }

/-- Complete-order state around the delivered order. -/
def stDelivered : CState :=
  { order := ordDelivered, seller := sellerU, gig := gigActive }

/-- An active two-user conversation between users 1 and 2. -/
def convAB : Conversation :=
  { id := 30, participants := [1, 2], status := ConvStatus.active }

/-- A concrete stand-in for bcrypt in witnesses: the stored `password` field
then holds the plaintext itself. -/
def demoHash : String → String := fun s => s

/-- An active, non-suspended client (user 1). -/
def buyerU : User :=
  { id := 1, name := "bee", email := "bee@example.com",
    password := demoHash "pw1", role := Role.client }

/-- The same client account, suspended by moderation. -/
def buyerSuspended : User :=
  { buyerU with isSuspended := true }

/-- The conversation after user 1 sent message 40: user 2 has one unread. -/
def convAB1 : Conversation :=
  { convAB with lastMessage := some 40, lastMessageAt := some 50,
                unreadCount := [(2, 1)] }

/-- The single stored message of that conversation, still unread. -/
def msgsAB1 : List Message :=
  [{ id := 40, conversation := 30, sender := 1, content := "hi" }]

/-- A review already stored for order 5. -/
def rev0 : Review :=
  { id := 9, order := 5, gig := 10, reviewer := 1, reviewee := 2,
    rating := 5, comment := "great" }

/-! ## Shared list-counting lemmas -/

/-- Appending one review changes `reviewsFor` by 1 exactly at its order. -/
theorem reviewsFor_append (reviews : List Review) (r : Review) (oid : OId) :
    reviewsFor (reviews ++ [r]) oid =
      reviewsFor reviews oid + (if r.order == oid then 1 else 0) := by
  unfold reviewsFor
  rw [List.filter_append, List.length_append]
  by_cases h : r.order == oid <;> simp [h]

/-- When `Review.findOne({order})` misses, no stored review references the
order. -/
theorem reviewsFor_eq_zero (reviews : List Review) (oid : OId)
    (h : reviews.find? (fun r => r.order == oid) = none) :
    reviewsFor reviews oid = 0 := by
  unfold reviewsFor
  rw [List.find?_eq_none] at h
  rw [List.filter_eq_nil_iff.mpr h]
  rfl

/-! ## Lemmas about the unread-counter map -/

/-- Updating the binding of key `k` in place does not change what `find?`
returns for a different key `p`. -/
theorem find?_update_ne (t : UnreadMap) (k v p : OId) (h : p ≠ k) :
    (t.map (fun q => if q.1 == k then (k, v) else q)).find?
        (fun q => q.1 == p) =
      t.find? (fun q => q.1 == p) := by
  induction t with
  | nil => rfl
  | cons r t ih =>
    rw [List.map_cons]
    by_cases hr : (r.1 == k) = true
    · have hk : r.1 = k := eq_of_beq hr
      rw [if_pos hr,
          @List.find?_cons_of_neg _ (fun q => q.1 == p) (k, v) _
            (by simp [Ne.symm h]),
          @List.find?_cons_of_neg _ (fun q => q.1 == p) r _
            (by simp [hk, Ne.symm h])]
      exact ih
    · rw [if_neg hr]
      by_cases hp : (r.1 == p) = true
      · rw [@List.find?_cons_of_pos _ (fun q => q.1 == p) r _ hp,
            @List.find?_cons_of_pos _ (fun q => q.1 == p) r _ hp]
      · rw [@List.find?_cons_of_neg _ (fun q => q.1 == p) r _ hp,
            @List.find?_cons_of_neg _ (fun q => q.1 == p) r _ hp]
        exact ih

/-- Updating the binding of key `k` in place makes `find?` return the new
binding, provided a binding for `k` exists. -/
theorem find?_update_self (t : UnreadMap) (k v : OId)
    (h : t.any (fun q => q.1 == k) = true) :
    (t.map (fun q => if q.1 == k then (k, v) else q)).find?
        (fun q => q.1 == k) =
      some (k, v) := by
  induction t with
  | nil => simp at h
  | cons r t ih =>
    rw [List.map_cons]
    by_cases hr : (r.1 == k) = true
    · rw [if_pos hr]
      exact @List.find?_cons_of_pos _ (fun q => q.1 == k) (k, v) _ (by simp)
    · have hr' : (r.1 == k) = false := by
        simpa using hr
      have ht : t.any (fun q => q.1 == k) = true := by
        simpa [List.any_cons, hr'] using h
      rw [if_neg hr, @List.find?_cons_of_neg _ (fun q => q.1 == k) r _ hr]
      exact ih ht

/-- Appending a binding for `k` does not change what `find?` returns for a
different key `p`. -/
theorem find?_append_ne (m : UnreadMap) (k v p : OId) (h : p ≠ k) :
    (m ++ [(k, v)]).find? (fun q => q.1 == p) =
      m.find? (fun q => q.1 == p) := by
  induction m with
  | nil =>
    rw [List.nil_append,
        @List.find?_cons_of_neg _ (fun q => q.1 == p) (k, v) _
          (by simp [Ne.symm h])]
  | cons r t ih =>
    by_cases hp : (r.1 == p) = true
    · rw [List.cons_append,
          @List.find?_cons_of_pos _ (fun q => q.1 == p) r _ hp,
          @List.find?_cons_of_pos _ (fun q => q.1 == p) r _ hp]
    · rw [List.cons_append,
          @List.find?_cons_of_neg _ (fun q => q.1 == p) r _ hp,
          @List.find?_cons_of_neg _ (fun q => q.1 == p) r _ hp]
      exact ih

/-- Appending a binding for `k` when none exists makes `find?` return it. -/
theorem find?_append_self (m : UnreadMap) (k v : OId)
    (h : m.any (fun q => q.1 == k) = false) :
    (m ++ [(k, v)]).find? (fun q => q.1 == k) = some (k, v) := by
  induction m with
  | nil => exact @List.find?_cons_of_pos _ (fun q => q.1 == k) (k, v) _ (by simp)
  | cons r t ih =>
    have h' : (r.1 == k) = false ∧ t.any (fun q => q.1 == k) = false := by
      rw [List.any_cons] at h
      exact ⟨Bool.or_eq_false_iff.mp h |>.1, Bool.or_eq_false_iff.mp h |>.2⟩
    rw [List.cons_append,
        @List.find?_cons_of_neg _ (fun q => q.1 == k) r _ (by simp [h'.1])]
    exact ih h'.2

/-- The `mset` then `mget` at the written key returns the written value. -/
theorem mget_mset_self (m : UnreadMap) (k v : OId) :
    mget (mset m k v) k = v := by
  unfold mset
  by_cases hc : m.any (fun q => q.1 == k) = true
  · rw [if_pos hc]
    unfold mget
    rw [find?_update_self m k v hc]
    rfl
  · rw [if_neg hc]
    unfold mget
    rw [find?_append_self m k v (by rwa [Bool.not_eq_true] at hc)]
    rfl

/-- The `mset` then `mget` at a different key is unchanged. -/
theorem mget_mset_ne (m : UnreadMap) (k v p : OId) (h : p ≠ k) :
    mget (mset m k v) p = mget m p := by
  unfold mset
  by_cases hc : m.any (fun q => q.1 == k) = true
  · rw [if_pos hc]
    unfold mget
    rw [find?_update_ne m k v p h]
  · rw [if_neg hc]
    unfold mget
    rw [find?_append_ne m k v p h]

/-- The `forEach` of `sendMessage` adds, at each key, the number of
occurrences of that key among the participants other than the sender. -/
theorem mget_sendFold (l : List OId) (m : UnreadMap) (sender p : OId) :
    mget (l.foldl
      (fun acc q => if q ≠ sender then mset acc q (mget acc q + 1) else acc)
      m) p =
      mget m p + (if p = sender then 0 else l.count p) := by
  induction l generalizing m with
  | nil => simp
  | cons a t ih =>
    rw [List.foldl_cons, ih]
    by_cases ha : a = sender
    · subst ha
      by_cases hp : p = a <;>
        simp [hp, List.count_cons, Ne.symm, if_neg]
    · rw [if_pos ha]
      by_cases hp : p = sender
      · have hpa : p ≠ a := fun hh => ha (hh ▸ hp)
        rw [mget_mset_ne m a _ p hpa]
        simp [hp]
      · by_cases hpa : p = a
        · subst hpa
          rw [mget_mset_self]
          simp [List.count_cons, hp]
          omega
        · rw [mget_mset_ne m a _ p hpa]
          simp [List.count_cons, hp, Ne.symm hpa, bne]

/-! ## C1: completion only from `delivered` -/

/-- C1, counterexample: the generic status-update endpoint writes
`completed` over a `pending` order for an authorized caller (the buyer), so
an order's status can become `completed` from a state that is not
`delivered`, contrary to the claim. -/
theorem C1_counterexample :
    ordPending.status = OrderStatus.pending ∧
    updateOrderStatus { id := 1, role := Role.client } 100
        OrderStatus.completed none ordPending =
      (HttpRes.ok,
       { ordPending with status := OrderStatus.completed,
                         completedDate := some 100 }) :=
  ⟨rfl, rfl⟩

/-- C1 (amended): the dedicated complete endpoint alone enforces the
delivered-before-completed rule: it succeeds only when the prior status is
`delivered` (and then the status becomes `completed`), and a complete
request by the buyer on a non-delivered order is rejected with 400 and
leaves the order, seller and gig unchanged.  The generic status-update
endpoint enforces no such rule (see the counterexample). -/
theorem C1_complete_requires_delivered (callerId now : Nat) (s s' : CState) :
    (completeOrder callerId now s = (HttpRes.ok, s') →
      s.order.status = OrderStatus.delivered ∧
      s'.order.status = OrderStatus.completed) ∧
    (s.order.buyer = callerId → s.order.status ≠ OrderStatus.delivered →
      completeOrder callerId now s =
        (HttpRes.err 400 "Order must be delivered before completion", s)) := by
  constructor
  · intro h
    unfold completeOrder at h
    split_ifs at h with h1 h2
    · simp at h
    · simp at h
    · simp only [Prod.mk.injEq] at h
      refine ⟨not_not.mp h2, ?_⟩
      rw [← h.2]
  · intro hb hst
    unfold completeOrder
    rw [if_neg (by simp [hb]), if_pos hst]

/-- C1, witness: on the concrete pending order the buyer's complete request
is rejected with 400 and the state is unchanged. -/
theorem C1_witness :
    completeOrder 1 100 stPending =
      (HttpRes.err 400 "Order must be delivered before completion",
       stPending) :=
  (C1_complete_requires_delivered 1 100 stPending stPending).2 rfl (by decide)

/-! ## C2: completion side effects, exactly once -/

/-- C2: a complete request by the buyer of a delivered order succeeds, sets
the status to `completed`, stamps `completedDate`, and increments
`seller.totalOrders`, `seller.totalEarnings` (by the order amount),
`gig.totalOrders` and `gig.totalEarnings` (by the order amount); a repeated
complete request on the resulting order is rejected with 400 and changes
nothing, so the four counters are incremented at most once per order. -/
theorem C2_completion_effects (callerId now now₂ : Nat) (s : CState)
    (hbuyer : s.order.buyer = callerId)
    (hdel : s.order.status = OrderStatus.delivered) :
    ∃ s', completeOrder callerId now s = (HttpRes.ok, s') ∧
      s'.order.status = OrderStatus.completed ∧
      s'.order.completedDate = some now ∧
      s'.seller.totalOrders = s.seller.totalOrders + 1 ∧
      s'.seller.totalEarnings = s.seller.totalEarnings + s.order.amount ∧
      s'.gig.totalOrders = s.gig.totalOrders + 1 ∧
      s'.gig.totalEarnings = s.gig.totalEarnings + s.order.amount ∧
      completeOrder callerId now₂ s' =
        (HttpRes.err 400 "Order must be delivered before completion", s') := by
  refine ⟨{ order := { s.order with status := OrderStatus.completed,
                                    completedDate := some now },
            seller := { s.seller with
                          totalOrders := s.seller.totalOrders + 1,
                          totalEarnings := s.seller.totalEarnings + s.order.amount },
            gig := { s.gig with
                       totalOrders := s.gig.totalOrders + 1,
                       totalEarnings := s.gig.totalEarnings + s.order.amount } },
          ?_, rfl, rfl, rfl, rfl, rfl, rfl, ?_⟩
  · unfold completeOrder
    rw [if_neg (by simp [hbuyer]), if_neg (by simp [hdel])]
  · unfold completeOrder
    rw [if_neg (by simp [hbuyer]), if_pos (by simp)]

/-- C2, witness: on the concrete delivered $50 order the completion effects
hold and the repeated request is rejected. -/
theorem C2_witness :
    ∃ s', completeOrder 1 100 stDelivered = (HttpRes.ok, s') ∧
      s'.order.status = OrderStatus.completed ∧
      s'.order.completedDate = some 100 ∧
      s'.seller.totalOrders = stDelivered.seller.totalOrders + 1 ∧
      s'.seller.totalEarnings =
        stDelivered.seller.totalEarnings + stDelivered.order.amount ∧
      s'.gig.totalOrders = stDelivered.gig.totalOrders + 1 ∧
      s'.gig.totalEarnings =
        stDelivered.gig.totalEarnings + stDelivered.order.amount ∧
      completeOrder 1 200 s' =
        (HttpRes.err 400 "Order must be delivered before completion", s') :=
  C2_completion_effects 1 100 200 stDelivered rfl rfl

/-! ## C3: the generic status-update endpoint accepts any enum value -/

/-- C3, counterexample: `disputed` is in the order-status enum, yet the
route validator of `PATCH /:id/status` rejects it with 400 even for an
authorized caller (here the buyer), so not every enum value can be set. -/
theorem C3_counterexample :
    isOrderParty { id := 1, role := Role.client } ordPending = true ∧
    updateOrderStatus { id := 1, role := Role.client } 100
        OrderStatus.disputed none ordPending =
      (HttpRes.err 400 "Invalid status", ordPending) :=
  ⟨rfl, rfl⟩

/-- C3 (amended): for every status accepted by the route validator (all enum
values except `disputed`), an authorized caller (buyer, seller or admin) can
set the order's status to it via the generic endpoint regardless of the
prior status: the request succeeds and the stored status equals the
requested value. -/
theorem C3_any_validated_status (c : Caller) (now : Nat) (st : OrderStatus)
    (msg : Option String) (o : Order)
    (hval : statusUpdateValidator st = true)
    (hauth : isOrderParty c o = true) :
    ∃ o', updateOrderStatus c now st msg o = (HttpRes.ok, o') ∧
      o'.status = st := by
  unfold updateOrderStatus
  rw [if_neg (by simp [hval]), if_neg (by simp [hauth])]
  exact ⟨_, rfl, rfl⟩

/-- C3, witness: the seller cancels the concrete pending order via the
generic endpoint. -/
theorem C3_witness :
    ∃ o', updateOrderStatus { id := 2, role := Role.freelancer } 100
        OrderStatus.cancelled none ordPending = (HttpRes.ok, o') ∧
      o'.status = OrderStatus.cancelled :=
  C3_any_validated_status { id := 2, role := Role.freelancer } 100
    OrderStatus.cancelled none ordPending rfl rfl

/-! ## C9: order creation guards -/

/-- C9: with a validated request body, order creation yields 404 when the
gig is missing, 400 when the gig is not active, 400 when the caller owns the
gig — each leaving the order store unchanged — and otherwise appends exactly
one new order with status `pending`, the caller as buyer and the gig's
seller as seller. -/
theorem C9_create_order_guards (c : Caller) (gigId : OId)
    (reqs : List String) (amount newId : Nat) (gigs : List Gig)
    (orders : List Order) (hreqs : reqs ≠ []) (hamt : 5 ≤ amount) :
    (findGig gigs gigId = none →
      createOrder c gigId reqs amount newId gigs orders =
        (HttpRes.err 404 "Gig not found", orders)) ∧
    (∀ gig, findGig gigs gigId = some gig →
      (gig.status ≠ GigStatus.active →
        createOrder c gigId reqs amount newId gigs orders =
          (HttpRes.err 400 "Gig is not available for orders", orders)) ∧
      (gig.seller = c.id → gig.status = GigStatus.active →
        createOrder c gigId reqs amount newId gigs orders =
          (HttpRes.err 400 "You cannot order your own gig", orders)) ∧
      (gig.seller ≠ c.id → gig.status = GigStatus.active →
        createOrder c gigId reqs amount newId gigs orders =
          (HttpRes.ok,
           orders ++ [{ id := newId, gig := gigId, buyer := c.id,
                        seller := gig.seller, amount := amount,
                        requirements := reqs,
                        status := OrderStatus.pending }]))) := by
  have h1 : reqs.isEmpty = false := by
    cases reqs with
    | nil => exact absurd rfl hreqs
    | cons a t => rfl
  have h2 : decide (amount < 5) = false :=
    decide_eq_false (Nat.not_lt.mpr hamt)
  constructor
  · intro hnone
    unfold createOrder
    rw [if_neg (by simp [h1, h2]), hnone]
  · intro gig hsome
    refine ⟨?_, ?_, ?_⟩
    · intro hst
      unfold createOrder
      rw [if_neg (by simp [h1, h2]), hsome]
      simp [hst]
    · intro hown hst
      unfold createOrder
      rw [if_neg (by simp [h1, h2]), hsome]
      simp [hst, hown]
    · intro hown hst
      unfold createOrder
      rw [if_neg (by simp [h1, h2]), hsome]
      simp [hst, hown]

/-- C9, witness: user 1 orders the concrete active gig of seller 2 and the
resulting store holds exactly the new pending order. -/
theorem C9_witness :
    createOrder { id := 1, role := Role.client } 10 ["logo"] 50 5
        [gigActive] [] = (HttpRes.ok, [ordPending]) :=
  ((C9_create_order_guards { id := 1, role := Role.client } 10 ["logo"] 50 5
      [gigActive] [] (by decide) (by decide)).2 gigActive rfl).2.2
    (by decide) rfl

/-! ## C6: review creation guards and at-most-one review per order -/

/-- C6: with a validated body and an existing order, review creation by a
non-buyer is rejected with 403, by the buyer on a non-completed order with
400, and when a review for the order already exists with 400 — each leaving
the review store unchanged — and the operation preserves the bound of at
most one review per order. -/
theorem C6_review_guards (callerId orderId rating newId : Nat)
    (comment : String) (orders : List Order) (reviews : List Review)
    (order : Order) (hr1 : 1 ≤ rating) (hr5 : rating ≤ 5)
    (hcne : comment.isEmpty = false) (hclen : comment.length ≤ 1000)
    (hord : findOrder orders orderId = some order) :
    (order.buyer ≠ callerId →
      createReview callerId orderId rating comment newId orders reviews =
        (HttpRes.err 403 "Not authorized to review this order", reviews)) ∧
    (order.buyer = callerId → order.status ≠ OrderStatus.completed →
      createReview callerId orderId rating comment newId orders reviews =
        (HttpRes.err 400 "Order must be completed before reviewing",
         reviews)) ∧
    (order.buyer = callerId → order.status = OrderStatus.completed →
      (reviews.find? (fun r => r.order == orderId)).isSome →
      createReview callerId orderId rating comment newId orders reviews =
        (HttpRes.err 400 "Review already exists for this order", reviews)) ∧
    (∀ oid, reviewsFor reviews oid ≤ 1 →
      reviewsFor
        (createReview callerId orderId rating comment newId orders
          reviews).2 oid ≤ 1) := by
  have hval : ¬ ((decide (rating < 1) || decide (5 < rating) ||
      comment.isEmpty || decide (1000 < comment.length)) = true) := by
    simp [Nat.not_lt.mpr hr1, Nat.not_lt.mpr hr5, hcne, Nat.not_lt.mpr hclen]
  refine ⟨?_, ?_, ?_, ?_⟩
  · intro hb
    unfold createReview
    rw [if_neg hval, hord]
    simp [hb]
  · intro hb hst
    unfold createReview
    rw [if_neg hval, hord]
    simp [hb, hst]
  · intro hb hst hdup
    unfold createReview
    rw [if_neg hval, hord]
    simp [hb, hst, hdup]
  · intro oid hle
    unfold createReview
    rw [if_neg hval, hord]
    by_cases hb : order.buyer ≠ callerId
    · simpa [hb] using hle
    · by_cases hst : order.status ≠ OrderStatus.completed
      · simpa [hb, hst] using hle
      · by_cases hdup : (reviews.find? (fun r => r.order == orderId)).isSome
        · simpa [hb, hst, hdup] using hle
        · have hnone : reviews.find? (fun r => r.order == orderId) = none :=
            Option.not_isSome_iff_eq_none.mp hdup
          rw [not_not] at hb hst
          by_cases hoid : oid = orderId
          · subst hoid
            simp [hb, hst, hnone, reviewsFor_append,
              reviewsFor_eq_zero reviews oid hnone]
          · simp [hb, hst, hnone, reviewsFor_append, Ne.symm hoid, hle]

/-- C6, witness: on the concrete completed order a second review attempt by
the buyer is rejected with 400 and the review store is unchanged. -/
theorem C6_witness :
    createReview 1 5 4 "nice" 11 [ordCompleted] [rev0] =
      (HttpRes.err 400 "Review already exists for this order", [rev0]) :=
  (C6_review_guards 1 5 4 11 "nice" [ordCompleted] [rev0] ordCompleted
    (by decide) (by decide) (by decide) (by decide) rfl).2.2.1
    rfl rfl (by decide)

/-! ## C4: sending a message bumps exactly the other participants -/

/-- C4: a participant's send in a non-blocked conversation succeeds, and
afterwards the unread counter of every participant other than the sender is
exactly one greater while the sender's own counter is unchanged. -/
theorem C4_send_increments_others (senderId : OId) (content : String)
    (msgId now : Nat) (conv : Conversation) (msgs : List Message)
    (hnodup : conv.participants.Nodup)
    (hmem : conv.participants.contains senderId = true)
    (hstatus : conv.status ≠ ConvStatus.blocked) :
    ∃ conv' msgs',
      sendMessage senderId content msgId now conv msgs =
        (HttpRes.ok, conv', msgs') ∧
      (∀ p ∈ conv.participants, p ≠ senderId →
        mget conv'.unreadCount p = mget conv.unreadCount p + 1) ∧
      mget conv'.unreadCount senderId = mget conv.unreadCount senderId := by
  have heq : sendMessage senderId content msgId now conv msgs =
      (HttpRes.ok,
       { conv with
           lastMessage := some msgId
           lastMessageAt := some now
           unreadCount := conv.participants.foldl
             (fun acc q =>
               if q ≠ senderId then mset acc q (mget acc q + 1) else acc)
             conv.unreadCount },
       msgs ++ [{ id := msgId, conversation := conv.id,
                  sender := senderId, content := content }]) := by
    unfold sendMessage
    rw [if_neg (not_not_intro hmem), if_neg hstatus]
  refine ⟨_, _, heq, ?_, ?_⟩
  · intro p hp hps
    have h := mget_sendFold conv.participants conv.unreadCount senderId p
    rw [if_neg hps, List.count_eq_one_of_mem hnodup hp] at h
    exact h
  · have h := mget_sendFold conv.participants conv.unreadCount senderId
      senderId
    rw [if_pos rfl, Nat.add_zero] at h
    exact h

/-- C4, witness: user 1 sends into the concrete conversation with users 1
and 2; user 2 gains one unread, user 1 none. -/
theorem C4_witness :
    ∃ conv' msgs',
      sendMessage 1 "hi" 40 50 convAB [] = (HttpRes.ok, conv', msgs') ∧
      (∀ p ∈ convAB.participants, p ≠ 1 →
        mget conv'.unreadCount p = mget convAB.unreadCount p + 1) ∧
      mget conv'.unreadCount 1 = mget convAB.unreadCount 1 :=
  C4_send_increments_others 1 "hi" 40 50 convAB [] (by decide) (by decide)
    (by decide)

/-! ## C5: unread counters only grow on others' sends; mark-as-read -/

/-- C5: after a participant marks the conversation read their counter is 0,
every other counter is untouched, every stored message of the conversation
from another sender is read afterwards (a previously-unread one gains the
read timestamp); moreover a mark-as-read never increases any counter, and a
send increases a counter only for a recipient distinct from the sender, the
sender being a participant. -/
theorem C5_mark_as_read (userId : OId) (now : Nat) (conv : Conversation)
    (msgs : List Message)
    (hmem : conv.participants.contains userId = true) :
    (∃ conv' msgs',
      markAsRead userId now conv msgs = (HttpRes.ok, conv', msgs') ∧
      mget conv'.unreadCount userId = 0 ∧
      (∀ p, p ≠ userId →
        mget conv'.unreadCount p = mget conv.unreadCount p) ∧
      (∀ m' ∈ msgs', m'.conversation = conv.id → m'.sender ≠ userId →
        m'.read = true) ∧
      (∀ (i : Nat) (m : Message), msgs[i]? = some m →
        m.conversation = conv.id → m.sender ≠ userId → m.read = false →
        msgs'[i]? = some { m with read := true, readAt := some now })) ∧
    (∀ uid now₂ p,
      mget (markAsRead uid now₂ conv msgs).2.1.unreadCount p ≤
        mget conv.unreadCount p) ∧
    (∀ s c msgId now₃ p,
      mget conv.unreadCount p <
        mget (sendMessage s c msgId now₃ conv msgs).2.1.unreadCount p →
      s ≠ p ∧ conv.participants.contains s = true) := by
  have heq : markAsRead userId now conv msgs =
      (HttpRes.ok,
       { conv with unreadCount := mset conv.unreadCount userId 0 },
       msgs.map (fun m =>
         if m.conversation == conv.id && m.sender != userId && !m.read then
           { m with read := true, readAt := some now }
         else m)) := by
    unfold markAsRead
    rw [if_neg (not_not_intro hmem)]
  refine ⟨⟨_, _, heq, ?_, ?_, ?_, ?_⟩, ?_, ?_⟩
  · exact mget_mset_self conv.unreadCount userId 0
  · intro p hp
    exact mget_mset_ne conv.unreadCount userId 0 p hp
  · intro m' hm' hconv hsender
    rcases List.mem_map.mp hm' with ⟨m, hm, rfl⟩
    by_cases hcond :
        (m.conversation == conv.id && m.sender != userId && !m.read) = true
    · rw [if_pos hcond]
    · rw [if_neg hcond] at hconv hsender ⊢
      by_cases hr : m.read = true
      · exact hr
      · exact absurd (by simp [hconv, hsender, Bool.eq_false_iff.mpr hr])
          hcond
  · intro i m hi hconv hsender hread
    rw [List.getElem?_map, hi, Option.map_some']
    rw [if_pos (by simp [hconv, hsender, hread])]
  · intro uid now₂ p
    unfold markAsRead
    by_cases hu : conv.participants.contains uid = true
    · rw [if_neg (not_not_intro hu)]
      by_cases hp : p = uid
      · subst hp
        exact le_trans (le_of_eq (mget_mset_self conv.unreadCount p 0))
          (Nat.zero_le _)
      · exact le_of_eq (mget_mset_ne conv.unreadCount uid 0 p hp)
    · rw [if_pos hu]
  · intro s c msgId now₃ p hlt
    unfold sendMessage at hlt
    by_cases hs : conv.participants.contains s = true
    · by_cases hb : conv.status = ConvStatus.blocked
      · rw [if_neg (not_not_intro hs), if_pos hb] at hlt
        exact absurd hlt (lt_irrefl _)
      · rw [if_neg (not_not_intro hs), if_neg hb] at hlt
        have hlt' : mget conv.unreadCount p <
            mget (conv.participants.foldl
              (fun acc q =>
                if q ≠ s then mset acc q (mget acc q + 1) else acc)
              conv.unreadCount) p := hlt
        rw [mget_sendFold] at hlt'
        by_cases hp : p = s
        · rw [if_pos hp, Nat.add_zero] at hlt'
          exact absurd hlt' (lt_irrefl _)
        · exact ⟨fun hh => hp hh.symm, hs⟩
    · rw [if_pos hs] at hlt
      exact absurd hlt (lt_irrefl _)

/-- C5, witness: user 2 marks the concrete one-message conversation read:
the counter drops to 0, user 1's counter is untouched, and the message is
stamped read. -/
theorem C5_witness :
    (∃ conv' msgs',
      markAsRead 2 60 convAB1 msgsAB1 = (HttpRes.ok, conv', msgs') ∧
      mget conv'.unreadCount 2 = 0 ∧
      (∀ p, p ≠ 2 →
        mget conv'.unreadCount p = mget convAB1.unreadCount p) ∧
      (∀ m' ∈ msgs', m'.conversation = convAB1.id → m'.sender ≠ 2 →
        m'.read = true) ∧
      (∀ (i : Nat) (m : Message), msgsAB1[i]? = some m →
        m.conversation = convAB1.id → m.sender ≠ 2 → m.read = false →
        msgs'[i]? = some { m with read := true, readAt := some 60 })) ∧
    (∀ uid now₂ p,
      mget (markAsRead uid now₂ convAB1 msgsAB1).2.1.unreadCount p ≤
        mget convAB1.unreadCount p) ∧
    (∀ s c msgId now₃ p,
      mget convAB1.unreadCount p <
        mget (sendMessage s c msgId now₃ convAB1 msgsAB1).2.1.unreadCount p →
      s ≠ p ∧ convAB1.participants.contains s = true) :=
  C5_mark_as_read 2 60 convAB1 msgsAB1 (by decide)

/-! ## C10: conversation creation is idempotent per pair -/

/-- Appending one conversation changes `pairConvs` by 1 exactly when the new
conversation matches the pair. -/
theorem pairConvs_append (convs : List Conversation) (cv : Conversation)
    (a b : OId) :
    pairConvs (convs ++ [cv]) a b =
      pairConvs convs a b +
        (if (cv.participants.contains a && cv.participants.contains b &&
             cv.status != ConvStatus.blocked) = true then 1 else 0) := by
  unfold pairConvs
  rw [List.filter_append, List.length_append, List.filter_singleton]
  by_cases h : (cv.participants.contains a && cv.participants.contains b &&
      cv.status != ConvStatus.blocked) = true
  · rw [h]
    rfl
  · rw [Bool.not_eq_true] at h
    rw [h]
    rfl

/-- The `pairConvs` is symmetric in the two users. -/
theorem pairConvs_comm (convs : List Conversation) (a b : OId) :
    pairConvs convs a b = pairConvs convs b a := by
  unfold pairConvs
  congr 1
  apply List.filter_congr
  intro cv _
  cases cv.participants.contains a <;> cases cv.participants.contains b <;>
    simp

/-- When `findOne` for the pair misses, no stored non-blocked conversation
contains both users. -/
theorem pairConvs_eq_zero (convs : List Conversation) (a b : OId)
    (h : convs.find? (fun cv =>
      cv.participants.contains a && cv.participants.contains b &&
      cv.status != ConvStatus.blocked) = none) :
    pairConvs convs a b = 0 := by
  unfold pairConvs
  rw [List.filter_eq_nil_iff.mpr (List.find?_eq_none.mp h)]
  rfl

/-- C10: when a non-blocked conversation containing both the caller and the
requested participant exists, create-conversation returns it and writes
nothing; and for every pair of distinct users the operation preserves the
bound of at most one non-blocked conversation containing both. -/
theorem C10_conversation_pairing (callerId participantId : OId)
    (orderId gigId : Option OId) (newId : OId) (users : List User)
    (convs : List Conversation) :
    (∀ u cv, users.find? (fun w => w.id == participantId) = some u →
      convs.find? (fun w => w.participants.contains callerId &&
        w.participants.contains participantId &&
        w.status != ConvStatus.blocked) = some cv →
      createConversation callerId participantId orderId gigId newId users
        convs = (HttpRes.ok, some cv, convs)) ∧
    (∀ a b, a ≠ b → pairConvs convs a b ≤ 1 →
      pairConvs (createConversation callerId participantId orderId gigId
        newId users convs).2.2 a b ≤ 1) := by
  constructor
  · intro u cv hu hcv
    unfold createConversation
    simp only [hu, hcv]
  · intro a b hab hle
    unfold createConversation
    cases hu : users.find? (fun w => w.id == participantId) with
    | none => exact hle
    | some u =>
      cases hcv : convs.find? (fun w => w.participants.contains callerId &&
          w.participants.contains participantId &&
          w.status != ConvStatus.blocked) with
      | some cv => exact hle
      | none =>
        have hz : pairConvs convs callerId participantId = 0 :=
          pairConvs_eq_zero convs callerId participantId hcv
        show pairConvs (convs ++
          [{ id := newId, participants := [callerId, participantId],
             status := ConvStatus.active, order := orderId,
             gig := gigId }]) a b ≤ 1
        rw [pairConvs_append]
        by_cases hm : (([callerId, participantId] : List OId).contains a &&
            ([callerId, participantId] : List OId).contains b &&
            (ConvStatus.active != ConvStatus.blocked)) = true
        · rw [if_pos hm]
          simp only [Bool.and_eq_true] at hm
          have ha : a = callerId ∨ a = participantId := by
            simpa using hm.1.1
          have hb : b = callerId ∨ b = participantId := by
            simpa using hm.1.2
          have hab0 : pairConvs convs a b = 0 := by
            rcases ha with ha | ha <;> rcases hb with hb | hb
            · exact absurd (ha.trans hb.symm) hab
            · rw [ha, hb]
              exact hz
            · rw [ha, hb, pairConvs_comm]
              exact hz
            · exact absurd (ha.trans hb.symm) hab
          rw [hab0]
        · rw [if_neg hm, Nat.add_zero]
          exact hle

/-- C10, witness: a second create request for the pair (1,2) returns the
stored conversation unchanged. -/
theorem C10_witness :
    createConversation 1 2 none none 99 [sellerU] [convAB] =
      (HttpRes.ok, some convAB, [convAB]) :=
  (C10_conversation_pairing 1 2 none none 99 [sellerU] [convAB]).1
    sellerU convAB (by decide) (by decide)

/-! ## C7: login token acceptance and no user-enumeration signal -/

/-- C7, counterexample: the login handler never checks `isSuspended`, so a
suspended account's correct credentials yield a token that the `protect`
middleware then rejects with 401 — the claimed "login token is subsequently
accepted" fails for this user. -/
theorem C7_counterexample :
    login demoHash [buyerSuspended] "bee@example.com" "pw1" "secret" =
      LoginRes.ok buyerSuspended (generateToken buyerSuspended "secret") ∧
    protect [buyerSuspended]
        (some (generateToken buyerSuspended "secret")) "secret" =
      AuthRes.err 401 "Account is suspended" := by
  exact ⟨by decide, by decide⟩

/-- C7 (amended): for an active, non-suspended user, a login with correct
credentials returns the signed token and the `protect` middleware accepts
it; and the two failing login runs — unknown email, and known email with a
wrong password — produce literally the same `400 "Invalid credentials"`
response, revealing nothing about whether the email is registered. -/
theorem C7_login_token_and_no_enumeration (hash : String → String)
    (db : List User) (email password secret : String) (u : User)
    (hfind : findByEmail db email = some u)
    (hpw : hash password = u.password)
    (hid : findById db u.id = some u)
    (hact : u.isActive = true) (hsus : u.isSuspended = false) :
    login hash db email password secret =
      LoginRes.ok u (generateToken u secret) ∧
    protect db (some (generateToken u secret)) secret = AuthRes.ok u ∧
    (∀ email₂ pw₂ email₃ pw₃ u₃,
      findByEmail db email₂ = none →
      findByEmail db email₃ = some u₃ → hash pw₃ ≠ u₃.password →
      login hash db email₂ pw₂ secret =
        LoginRes.err 400 "Invalid credentials" ∧
      login hash db email₃ pw₃ secret =
        login hash db email₂ pw₂ secret) := by
  refine ⟨?_, ?_, ?_⟩
  · unfold login
    simp only [hfind]
    rw [if_neg (not_not_intro hpw)]
  · have hv : jwtVerify (generateToken u secret) secret =
        some (u.id, u.role) := by
      unfold jwtVerify generateToken
      rw [if_pos rfl]
    unfold protect
    simp only [hv, hid]
    rw [if_neg (not_not_intro hact),
        if_neg (by rw [hsus]; exact Bool.false_ne_true),
        if_neg (not_not_intro (by cases u.role <;> rfl))]
  · intro email₂ pw₂ email₃ pw₃ u₃ h₂ h₃ hp₃
    constructor
    · unfold login
      simp only [h₂]
    · unfold login
      simp only [h₂, h₃]
      rw [if_pos hp₃]

/-- C7, witness: for the concrete active client the login token passes the
middleware, and the unknown-email run and the wrong-password run return the
identical response. -/
theorem C7_witness :
    login demoHash [buyerU] "bee@example.com" "pw1" "s" =
      LoginRes.ok buyerU (generateToken buyerU "s") ∧
    protect [buyerU] (some (generateToken buyerU "s")) "s" =
      AuthRes.ok buyerU ∧
    login demoHash [buyerU] "ghost@example.com" "zz" "s" =
      LoginRes.err 400 "Invalid credentials" ∧
    login demoHash [buyerU] "bee@example.com" "bad" "s" =
      login demoHash [buyerU] "ghost@example.com" "zz" "s" := by
  have h := C7_login_token_and_no_enumeration demoHash [buyerU]
    "bee@example.com" "pw1" "s" buyerU (by decide) (by decide) (by decide)
    rfl rfl
  have h3 := h.2.2 "ghost@example.com" "zz" "bee@example.com" "bad" buyerU
    (by decide) (by decide) (by decide)
  exact ⟨h.1, h.2.1, h3.1, h3.2⟩

/-! ## C8: at most one primary gig image -/

/-- The `countPrimary` over a cons. -/
theorem countPrimary_cons (x : Image) (l : List Image) :
    countPrimary (x :: l) =
      (if x.isPrimary = true then 1 else 0) + countPrimary l := by
  unfold countPrimary
  rw [List.filter_cons]
  by_cases h : x.isPrimary = true
  · rw [if_pos h, if_pos h, List.length_cons]
    omega
  · rw [if_neg h, if_neg h]
    omega

/-- The `countPrimary` over an append. -/
theorem countPrimary_append (l₁ l₂ : List Image) :
    countPrimary (l₁ ++ l₂) = countPrimary l₁ + countPrimary l₂ := by
  unfold countPrimary
  rw [List.filter_append, List.length_append]

/-- The indexed rewrite of `setPrimaryImage` flags exactly the position `i`
when it is in range, counting from `n`. -/
theorem countPrimary_setFrom (l : List Image) (i n : Nat) :
    countPrimary ((List.enumFrom n l).map
      (fun p => { p.2 with isPrimary := p.1 == i })) =
      if n ≤ i ∧ i < n + l.length then 1 else 0 := by
  induction l generalizing n with
  | nil =>
    rw [if_neg (by rw [List.length_nil]; omega)]
    rfl
  | cons x t ih =>
    rw [List.enumFrom_cons, List.map_cons, countPrimary_cons, ih,
        List.length_cons]
    dsimp only
    by_cases hni : n = i
    · subst hni
      rw [if_pos (show (n == n) = true by simp),
          if_neg (show ¬(n + 1 ≤ n ∧ n < n + 1 + t.length) by omega),
          if_pos (show n ≤ n ∧ n < n + (t.length + 1) by omega)]
    · rw [if_neg (show ¬((n == i) = true) by simp [hni])]
      by_cases hr : n + 1 ≤ i ∧ i < n + 1 + t.length
      · rw [if_pos hr, if_pos (show n ≤ i ∧ i < n + (t.length + 1) by omega)]
      · rw [if_neg hr, if_neg (show ¬(n ≤ i ∧ i < n + (t.length + 1)) by
          intro hc
          exact hr ⟨by omega, by omega⟩)]

/-- Erasing the image found at a valid index splits `countPrimary`. -/
theorem countPrimary_eraseIdx (imgs : List Image) (i : Nat) (removed : Image)
    (h : imgs[i]? = some removed) :
    countPrimary imgs =
      (if removed.isPrimary = true then 1 else 0) +
        countPrimary (imgs.eraseIdx i) := by
  induction imgs generalizing i with
  | nil => simp at h
  | cons x t ih =>
    cases i with
    | zero =>
      rw [List.getElem?_cons_zero] at h
      injection h with h
      subst h
      rw [List.eraseIdx_cons_zero, countPrimary_cons]
    | succ j =>
      rw [List.getElem?_cons_succ] at h
      rw [List.eraseIdx_cons_succ, countPrimary_cons, countPrimary_cons,
          ih j h]
      omega

/-- Promoting the head adds a primary flag on the head and keeps the tail. -/
theorem countPrimary_promoteFirst (r : Image) (rs : List Image) :
    countPrimary (promoteFirst (r :: rs)) = 1 + countPrimary rs := by
  unfold promoteFirst
  rw [countPrimary_cons]
  rfl

/-- The `removeImage` at a valid index whose image is primary, with images
remaining, returns the promoted remainder. -/
theorem removeImage_eq_promote (imgs : List Image) (i : Nat)
    (removed : Image) (hg : imgs[i]? = some removed)
    (hp : (removed.isPrimary && !(imgs.eraseIdx i).isEmpty) = true) :
    removeImage imgs i = .ok (promoteFirst (imgs.eraseIdx i)) := by
  unfold removeImage
  simp only [hg]
  rw [if_pos hp]

/-- The `removeImage` at a valid index otherwise returns the plain remainder. -/
theorem removeImage_eq_rest (imgs : List Image) (i : Nat)
    (removed : Image) (hg : imgs[i]? = some removed)
    (hp : (removed.isPrimary && !(imgs.eraseIdx i).isEmpty) = false) :
    removeImage imgs i = .ok (imgs.eraseIdx i) := by
  unfold removeImage
  simp only [hg]
  rw [if_neg (by rw [hp]; exact Bool.false_ne_true)]

/-- One image-method call whose `addImage` argument is not pre-flagged
primary preserves the at-most-one-primary bound. -/
theorem applyImgOp_preserves (imgs : List Image) (op : ImgOp)
    (hop : ∀ img, op = ImgOp.add img → img.isPrimary = false)
    (hinv : countPrimary imgs ≤ 1) :
    countPrimary (applyImgOp imgs op) ≤ 1 := by
  cases op with
  | add img =>
    have hfalse : img.isPrimary = false := hop img rfl
    have hout : applyImgOp imgs (ImgOp.add img) = addImage imgs img := rfl
    rw [hout]
    unfold addImage
    by_cases he : imgs.isEmpty = true
    · rw [if_pos he]
      have : imgs = [] := List.isEmpty_iff.mp he
      subst this
      rw [List.nil_append, countPrimary_cons]
      simp [countPrimary]
    · rw [if_neg he, countPrimary_append, countPrimary_cons]
      rw [hfalse]
      simp only [Bool.false_eq_true, if_false]
      simpa [countPrimary] using hinv
  | setPrimary i =>
    by_cases hi : i < imgs.length
    · have hout : applyImgOp imgs (ImgOp.setPrimary i) =
          imgs.enum.map (fun p => { p.2 with isPrimary := p.1 == i }) := by
        show (match setPrimaryImage imgs i with
          | Except.ok l => l
          | Except.error _ => imgs) = _
        unfold setPrimaryImage
        rw [if_pos hi]
      rw [hout]
      have hone : countPrimary (imgs.enum.map
          (fun p => { p.2 with isPrimary := p.1 == i })) =
          if 0 ≤ i ∧ i < 0 + imgs.length then 1 else 0 :=
        countPrimary_setFrom imgs i 0
      rw [if_pos (by omega)] at hone
      omega
    · have hout : applyImgOp imgs (ImgOp.setPrimary i) = imgs := by
        show (match setPrimaryImage imgs i with
          | Except.ok l => l
          | Except.error _ => imgs) = _
        unfold setPrimaryImage
        rw [if_neg hi]
      rw [hout]
      exact hinv
  | remove i =>
    cases hg : imgs[i]? with
    | none =>
      have hout : applyImgOp imgs (ImgOp.remove i) = imgs := by
        show (match removeImage imgs i with
          | Except.ok l => l
          | Except.error _ => imgs) = _
        unfold removeImage
        simp only [hg]
      rw [hout]
      exact hinv
    | some removed =>
      have hcount := countPrimary_eraseIdx imgs i removed hg
      by_cases hp : (removed.isPrimary && !(imgs.eraseIdx i).isEmpty) = true
      · have hout : applyImgOp imgs (ImgOp.remove i) =
            promoteFirst (imgs.eraseIdx i) := by
          show (match removeImage imgs i with
            | Except.ok l => l
            | Except.error _ => imgs) = _
          rw [removeImage_eq_promote imgs i removed hg hp]
        rw [hout]
        have hprim : removed.isPrimary = true :=
          (Bool.and_eq_true _ _ |>.mp hp).1
        have hne : (imgs.eraseIdx i).isEmpty = false := by
          have h2 := (Bool.and_eq_true _ _ |>.mp hp).2
          simpa using h2
        rw [hprim, if_pos rfl] at hcount
        cases hrest : imgs.eraseIdx i with
        | nil =>
          rw [hrest] at hne
          cases hne
        | cons r rs =>
          rw [countPrimary_promoteFirst]
          rw [hrest, countPrimary_cons] at hcount
          omega
      · have hout : applyImgOp imgs (ImgOp.remove i) = imgs.eraseIdx i := by
          show (match removeImage imgs i with
            | Except.ok l => l
            | Except.error _ => imgs) = _
          rw [removeImage_eq_rest imgs i removed hg
            (by rwa [Bool.not_eq_true] at hp)]
        rw [hout]
        omega

/-- The add-image sequences allowed by C8's amendment preserve the bound. -/
theorem imgOps_preserve (ops : List ImgOp) :
    ∀ (imgs : List Image), countPrimary imgs ≤ 1 →
      (∀ op ∈ ops, ∀ img, op = ImgOp.add img → img.isPrimary = false) →
      countPrimary (ops.foldl applyImgOp imgs) ≤ 1 := by
  induction ops with
  | nil =>
    intro imgs h _
    simpa using h
  | cons op t ih =>
    intro imgs h hadds
    rw [List.foldl_cons]
    exact ih (applyImgOp imgs op)
      (applyImgOp_preserves imgs op (hadds op (List.mem_cons_self op t)) h)
      (fun o ho => hadds o (List.mem_cons_of_mem op ho))

/-- C8, counterexample: `addImage` trusts the `isPrimary` flag of its
argument, so adding a second image already flagged primary to a fresh gig
leaves two primary images, refuting the invariant for arbitrary sequences of
the three methods. -/
theorem C8_counterexample :
    countPrimary
      (applyImgOp (applyImgOp [] (ImgOp.add { url := "a.png" }))
        (ImgOp.add { url := "b.png", isPrimary := true })) = 2 := by
  decide

/-- C8 (amended): starting from an image list with at most one primary,
any sequence of `addImage`/`setPrimaryImage`/`removeImage` calls in which
every added image carries `isPrimary = false` (as every caller in the
repository does) keeps at most one image primary; and whenever `removeImage`
removes the primary image while other images remain, the first remaining
image becomes primary. -/
theorem C8_single_primary (ops : List ImgOp) (imgs : List Image)
    (hinv : countPrimary imgs ≤ 1)
    (hadds : ∀ op ∈ ops, ∀ img, op = ImgOp.add img → img.isPrimary = false) :
    countPrimary (ops.foldl applyImgOp imgs) ≤ 1 ∧
    (∀ (l : List Image) (i : Nat) (removed : Image),
      l[i]? = some removed → removed.isPrimary = true → l.eraseIdx i ≠ [] →
      removeImage l i = .ok (promoteFirst (l.eraseIdx i)) ∧
      ∀ r rs, l.eraseIdx i = r :: rs →
        promoteFirst (l.eraseIdx i) = { r with isPrimary := true } :: rs) := by
  constructor
  · exact imgOps_preserve ops imgs hinv hadds
  · intro l i removed hg hprim hne
    constructor
    · exact removeImage_eq_promote l i removed hg
        (by
          rw [Bool.and_eq_true, hprim]
          exact ⟨rfl, by simpa [List.isEmpty_iff] using hne⟩)
    · intro r rs hrr
      rw [hrr]
      rfl

/-- C8, witness: the sequence add, add, set-primary-1, remove-1 from a fresh
gig keeps at most one primary, and removing the primary head of a concrete
two-image list promotes the remaining image. -/
theorem C8_witness :
    countPrimary
      ([ImgOp.add { url := "a.png" }, ImgOp.add { url := "b.png" },
        ImgOp.setPrimary 1, ImgOp.remove 1].foldl applyImgOp []) ≤ 1 ∧
    removeImage [{ url := "a.png", isPrimary := true },
        { url := "b.png" }] 0 =
      .ok (promoteFirst ([{ url := "a.png", isPrimary := true },
        ({ url := "b.png" } : Image)].eraseIdx 0)) := by
  have h := C8_single_primary
    [ImgOp.add { url := "a.png" }, ImgOp.add { url := "b.png" },
     ImgOp.setPrimary 1, ImgOp.remove 1] [] (by decide)
    (by
      intro op hop img heq
      subst heq
      simp only [List.mem_cons, List.mem_singleton] at hop
      rcases hop with h | h | h | h
      · injection h with h'
        rw [h']
      · injection h with h'
        rw [h']
      · exact absurd h (by simp)
      · exact absurd h (by simp))
  exact ⟨h.1, (h.2 [{ url := "a.png", isPrimary := true },
    { url := "b.png" }] 0 { url := "a.png", isPrimary := true }
    (by decide) (by decide) (by decide)).1⟩

end Marketplace
